import Mathlib

/-!
Shallow embedding of the `playing-cards` library (`src/src/lib.rs`, with the
legacy copy `src/cards.rs` where a claim compares the two), together with
theorems settling the specification claims.

Rust `usize` discriminants of the enums are modelled by explicit `toIdx`
functions; `Display` implementations are modelled as `String`-valued
functions; `Vec<Card>` is modelled as `List Card` in the same element order
(`Vec::push`/`Vec::pop` act on the last element).
-/

set_option maxHeartbeats 1000000
set_option maxRecDepth 4000

namespace PlayingCards

/-- The `Suit` enum of `src/src/lib.rs`. -/
inductive Suit
  | Clubs
  | Diamonds
  | Hearts
  | Spades
deriving DecidableEq, Repr, Fintype

/-- Rust discriminant of a `Suit` (`*self as usize`). -/
def Suit.toIdx : Suit → Nat
  | .Clubs => 0
  | .Diamonds => 1
  | .Hearts => 2
  | .Spades => 3

/-- The constant `SUITS` of `src/src/lib.rs`. -/
def SUITS : List Suit := [.Clubs, .Diamonds, .Hearts, .Spades]

/-- The constant `SUIT_NAMES` of `src/src/lib.rs`. -/
def SUIT_NAMES : List Char := ['C', 'D', 'H', 'S']

/-- The `Display` impl for `Suit`: writes `SUIT_NAMES[*self as usize]`. -/
def Suit.display (s : Suit) : String :=
  String.mk [SUIT_NAMES.getD s.toIdx ' ']

/-- The `Rank` enum of `src/src/lib.rs`. -/
inductive Rank
  | Two
  | Three
  | Four
  | Five
  | Six
  | Seven
  | Eight
  | Nine
  | Ten
  | Jack
  | Queen
  | King
  | Ace
  | Joker
deriving DecidableEq, Repr, Fintype

/-- Rust discriminant of a `Rank` (`*self as usize`). -/
def Rank.toIdx : Rank → Nat
  | .Two => 0
  | .Three => 1
  | .Four => 2
  | .Five => 3
  | .Six => 4
  | .Seven => 5
  | .Eight => 6
  | .Nine => 7
  | .Ten => 8
  | .Jack => 9
  | .Queen => 10
  | .King => 11
  | .Ace => 12
  | .Joker => 13

/-- The constant `RANKS` of `src/src/lib.rs`. -/
def RANKS : List Rank :=
  [.Two, .Three, .Four, .Five, .Six, .Seven, .Eight, .Nine, .Ten, .Jack,
   .Queen, .King, .Ace, .Joker]

/-- The constant `RANK_NAMES`, shared verbatim by both copies. -/
def RANK_NAMES : List Char := ['T', 'J', 'Q', 'K', 'A', '?']

/-- The `Display` impl for `Rank` in `src/src/lib.rs`: ranks whose
discriminant is at least `RANKS.len() - RANK_NAMES.len()` print the letter
from `RANK_NAMES`, the rest print the decimal numeral `2 + *self as usize`. -/
def Rank.display (r : Rank) : String :=
  let namesStart := RANKS.length - RANK_NAMES.length
  if r.toIdx ≥ namesStart then
    String.mk [RANK_NAMES.getD (r.toIdx - namesStart) ' ']
  else
    toString (2 + r.toIdx)

/-- The `Display` impl for `Rank` in the legacy copy `src/cards.rs`: identical
except that the numeric branch prints `*self as usize` with no `2 +`. -/
def Rank.displayCardsRs (r : Rank) : String :=
  let namesStart := RANKS.length - RANK_NAMES.length
  if r.toIdx ≥ namesStart then
    String.mk [RANK_NAMES.getD (r.toIdx - namesStart) ' ']
  else
    toString r.toIdx

/-- The derived `PartialOrd`/`Ord` on `Rank` compares discriminants. -/
def Rank.ordLt (a b : Rank) : Prop := a.toIdx < b.toIdx

instance : DecidablePred fun p : Rank × Rank => Rank.ordLt p.1 p.2 :=
  fun p => inferInstanceAs (Decidable (p.1.toIdx < p.2.toIdx))

instance (a b : Rank) : Decidable (Rank.ordLt a b) :=
  inferInstanceAs (Decidable (a.toIdx < b.toIdx))

/-- The `Color` enum of `src/src/lib.rs`. -/
inductive Color
  | Black
  | Red
deriving DecidableEq, Repr, Fintype

/-- Rust discriminant of a `Color` (`*self as usize`). -/
def Color.toIdx : Color → Nat
  | .Black => 0
  | .Red => 1

/-- The constant `COLORS` of `src/src/lib.rs`. -/
def COLORS : List Color := [.Black, .Red]

/-- The constant `COLOR_NAMES` of `src/src/lib.rs` (note the order:
`Black` maps to `'R'` and `Red` maps to `'B'`). -/
def COLOR_NAMES : List Char := ['R', 'B']

/-- The `Display` impl for `Color`: writes `COLOR_NAMES[*self as usize]`. -/
def Color.display (c : Color) : String :=
  String.mk [COLOR_NAMES.getD c.toIdx ' ']

/-- The `Card` enum of `src/src/lib.rs`. -/
inductive Card
  | SuitCard (suit : Suit) (rank : Rank)
  | JokerCard (color : Color)
deriving DecidableEq, Repr, Fintype

/-- The `Display` impl for `Card`: a `SuitCard` writes rank then suit, a
`JokerCard` writes its color then the rank `Joker`. -/
def Card.display : Card → String
  | .SuitCard suit rank => rank.display ++ suit.display
  | .JokerCard color => color.display ++ Rank.Joker.display

/-- Method `Card::rank` of `src/src/lib.rs`. -/
def Card.rank : Card → Rank
  | .JokerCard _ => .Joker
  | .SuitCard _ r => r

/-- Method `Card::suit` of `src/src/lib.rs`. -/
def Card.suit : Card → Option Suit
  | .JokerCard _ => none
  | .SuitCard s _ => some s

/-- Impl `From<Suit> for Color` of `src/src/lib.rs`. -/
def Color.fromSuit : Suit → Color
  | .Clubs => .Black
  | .Diamonds => .Red
  | .Hearts => .Red
  | .Spades => .Black

/-- Method `Card::color` of `src/src/lib.rs`. -/
def Card.color : Card → Color
  | .JokerCard c => c
  | .SuitCard s _ => Color.fromSuit s

/-- The `IterCards` iterator state of `src/src/lib.rs`. -/
structure IterCards where
  rank : Nat
  suit : Nat
  jokers : Bool
deriving DecidableEq, Repr

/-- Constructor `IterCards::standard`. -/
def IterCards.standard : IterCards := { rank := 0, suit := 0, jokers := false }

/-- Constructor `IterCards::full`. -/
def IterCards.full : IterCards := { rank := 0, suit := 0, jokers := true }

/-- One call of `IterCards::next`, returning the yielded item and the updated
iterator state. Mirrors the Rust body: exhausted ranks return `None`; at the
last rank (`Joker`) the jokers are emitted (or `None` if not requested); any
other rank emits `SuitCard(SUITS[suit], RANKS[rank])` and advances suit-first. -/
def IterCards.next (it : IterCards) : Option Card × IterCards :=
  if it.rank ≥ RANKS.length then
    (none, it)
  else if it.rank = RANKS.length - 1 then
    if it.jokers = false ∨ it.suit ≥ COLORS.length then
      (none, it)
    else
      (some (.JokerCard (COLORS.getD it.suit .Black)),
       { it with suit := it.suit + 1 })
  else
    let result := Card.SuitCard (SUITS.getD it.suit .Clubs) (RANKS.getD it.rank .Two)
    if it.suit + 1 ≥ SUITS.length then
      (some result, { it with suit := 0, rank := it.rank + 1 })
    else
      (some result, { it with suit := it.suit + 1 })

/-- Collect up to `fuel` items from the iterator, stopping at the first
`None`, as `Iterator::collect` does (with enough fuel this is the whole
yielded sequence). -/
def IterCards.collectFuel : Nat → IterCards → List Card
  | 0, _ => []
  | fuel + 1, it =>
    match it.next with
    | (some c, it2) => c :: IterCards.collectFuel fuel it2
    | (none, _) => []

/-- The iterator state after `n` calls of `next`. -/
def IterCards.steps : Nat → IterCards → IterCards
  | 0, it => it
  | n + 1, it => IterCards.steps n it.next.2

/-- Expected value taken from the claims' words: the 52-card sequence in
rank-major, suit-minor declaration order — for each of the 13 non-Joker ranks in
declaration order, one `SuitCard` per suit in declaration order. -/
def standardOrder : List Card :=
  (RANKS.take 13).flatMap fun r => SUITS.map fun s => Card.SuitCard s r

/-- Expected value taken from the claims' words: the 54-card full sequence — the standard 52
followed by the black then the red joker. -/
def fullOrder : List Card :=
  standardOrder ++ [.JokerCard .Black, .JokerCard .Red]

/-- The `Deck` struct of `src/src/lib.rs`: a `Vec<Card>`, modelled as a list
in the same order (the vector's last element is the list's last element). -/
structure Deck where
  cards : List Card
deriving DecidableEq, Repr

/-- Constructor `Deck::new`. -/
def Deck.new : Deck := { cards := [] }

/-- Method `Deck::draw`: `Vec::pop`, removing and returning the last element;
returns the untouched deck together with `none` when empty. -/
def Deck.draw (d : Deck) : Option Card × Deck :=
  match d.cards.getLast? with
  | none => (none, d)
  | some c => (some c, { cards := d.cards.dropLast })

/-- Method `Deck::put`: `Vec::push`, appending at the end. -/
def Deck.put (d : Deck) (c : Card) : Deck := { cards := d.cards ++ [c] }

/-- Method `Deck::append`: `extend`s the receiver with the other deck's cards in
their existing order, consuming the other deck. -/
def Deck.append (d other : Deck) : Deck := { cards := d.cards ++ other.cards }

/-- Method `Deck::reverse`. -/
def Deck.reverse (d : Deck) : Deck := { cards := d.cards.reverse }

/-- Slice method `<[Card]>::swap i j`: exchange the elements at positions `i` and `j`
(both in bounds whenever the slice method is reached). -/
def listSwap (l : List Card) (i j : Nat) : List Card :=
  match l[i]?, l[j]? with
  | some a, some b => (l.set i b).set j a
  | _, _ => l

/-- The rand crate's `SliceRandom::shuffle`, the loop
`for i in (1..len).rev() { swap(i, gen_range(0, i+1)) }`: `n` counts the
remaining loop iterations; `rng i` models the generator's raw output at step
`i`, reduced `mod (i+1)` to reflect `gen_range(0, i+1)`'s contract. -/
def shuffleSteps (rng : Nat → Nat) : Nat → List Card → List Card
  | 0, l => l
  | i + 1, l => shuffleSteps rng i (listSwap l (i + 1) (rng (i + 1) % (i + 2)))

/-- Method `Deck::shuffle`, for an arbitrary state `rng` of the random source. -/
def Deck.shuffle (rng : Nat → Nat) (d : Deck) : Deck :=
  { cards := shuffleSteps rng (d.cards.length - 1) d.cards }

/-- When `next` yields nothing, it also leaves the iterator state unchanged. -/
theorem IterCards.next_none_eq (it : IterCards) (h : it.next.1 = none) :
    it.next = (none, it) := by
  unfold IterCards.next at h ⊢
  split_ifs at h ⊢ <;> simp_all

/-- An iterator stuck at `none` stays at the same state forever. -/
theorem IterCards.steps_fix (it : IterCards) (h : it.next = (none, it)) :
    ∀ n, IterCards.steps n it = it := by
  intro n
  induction n with
  | zero => rfl
  | succ n ih => simp only [IterCards.steps, h]; exact ih

/-- An iterator stuck at `none` collects nothing, whatever the fuel. -/
theorem IterCards.collect_none (it : IterCards) (h : it.next = (none, it)) :
    ∀ n, IterCards.collectFuel n it = [] := by
  intro n
  cases n with
  | zero => rfl
  | succ n => simp [IterCards.collectFuel, h]

/-- Splitting the fuel splits the collected sequence at the corresponding
iterator state. -/
theorem IterCards.collect_add (a b : Nat) :
    ∀ it : IterCards, IterCards.collectFuel (a + b) it =
      IterCards.collectFuel a it ++ IterCards.collectFuel b (IterCards.steps a it) := by
  induction a with
  | zero =>
    intro it
    simp [IterCards.collectFuel, IterCards.steps]
  | succ n ih =>
    intro it
    have hadd : n + 1 + b = (n + b) + 1 := by omega
    rw [hadd]
    cases hn : it.next with
    | mk o it2 =>
      cases o with
      | some c =>
        simp only [IterCards.collectFuel, hn]
        rw [ih it2]
        have hsteps : IterCards.steps (n + 1) it = IterCards.steps n it2 := by
          simp [IterCards.steps, hn]
        rw [hsteps]
        simp
      | none =>
        have h1 : it.next.1 = none := by rw [hn]
        have hfix : it.next = (none, it) := IterCards.next_none_eq it h1
        have hsteps : IterCards.steps (n + 1) it = it := by
          simp only [IterCards.steps, hfix]
          exact IterCards.steps_fix it hfix n
        rw [hsteps]
        simp [IterCards.collectFuel, hfix, IterCards.collect_none it hfix]

/-- Running the iterator `a + b` steps is running it `a` steps then `b` more. -/
theorem IterCards.steps_add (a b : Nat) :
    ∀ it : IterCards, IterCards.steps (a + b) it =
      IterCards.steps b (IterCards.steps a it) := by
  induction a with
  | zero => intro it; rw [Nat.zero_add]; rfl
  | succ n ih =>
    intro it
    have hadd : n + 1 + b = (n + b) + 1 := by omega
    rw [hadd]
    simp only [IterCards.steps]
    exact ih it.next.2

/-- With any sufficient fuel, the standard iterator collects exactly the
52-card rank-major sequence. -/
theorem collect_standard_eventually (n : Nat) (hn : 52 ≤ n) :
    IterCards.collectFuel n IterCards.standard = standardOrder := by
  have hcol : IterCards.collectFuel 52 IterCards.standard = standardOrder := by decide
  have hsteps : IterCards.steps 52 IterCards.standard =
      { rank := 13, suit := 0, jokers := false } := by decide
  have hnone : IterCards.next { rank := 13, suit := 0, jokers := false } =
      (none, { rank := 13, suit := 0, jokers := false }) := by decide
  have hsplit : n = 52 + (n - 52) := by omega
  rw [hsplit, IterCards.collect_add, hcol, hsteps,
    IterCards.collect_none _ hnone, List.append_nil]

/-- After its 52 cards, the standard iterator answers `none` forever. -/
theorem steps_standard_none (k : Nat) (hk : 52 ≤ k) :
    (IterCards.steps k IterCards.standard).next.1 = none := by
  have hsteps : IterCards.steps 52 IterCards.standard =
      { rank := 13, suit := 0, jokers := false } := by decide
  have hnone : IterCards.next { rank := 13, suit := 0, jokers := false } =
      (none, { rank := 13, suit := 0, jokers := false }) := by decide
  have hsplit : k = 52 + (k - 52) := by omega
  rw [hsplit, IterCards.steps_add, hsteps, IterCards.steps_fix _ hnone, hnone]

/-- With any sufficient fuel, the full iterator collects the 52-card
sequence followed by the two jokers. -/
theorem collect_full_eventually (n : Nat) (hn : 54 ≤ n) :
    IterCards.collectFuel n IterCards.full = fullOrder := by
  have hcol : IterCards.collectFuel 54 IterCards.full = fullOrder := by decide
  have hsteps : IterCards.steps 54 IterCards.full =
      { rank := 13, suit := 2, jokers := true } := by decide
  have hnone : IterCards.next { rank := 13, suit := 2, jokers := true } =
      (none, { rank := 13, suit := 2, jokers := true }) := by decide
  have hsplit : n = 54 + (n - 54) := by omega
  rw [hsplit, IterCards.collect_add, hcol, hsteps,
    IterCards.collect_none _ hnone, List.append_nil]

/-- After its 54 cards, the full iterator answers `none` forever. -/
theorem steps_full_none (k : Nat) (hk : 54 ≤ k) :
    (IterCards.steps k IterCards.full).next.1 = none := by
  have hsteps : IterCards.steps 54 IterCards.full =
      { rank := 13, suit := 2, jokers := true } := by decide
  have hnone : IterCards.next { rank := 13, suit := 2, jokers := true } =
      (none, { rank := 13, suit := 2, jokers := true }) := by decide
  have hsplit : k = 54 + (k - 54) := by omega
  rw [hsplit, IterCards.steps_add, hsteps, IterCards.steps_fix _ hnone, hnone]

/-- C2: `IterCards::standard` yields exactly 52 cards, each of the 4×13
(suit, non-Joker rank) combinations exactly once, in rank-major/suit-minor
declaration order, and after them the iterator returns `None` forever. -/
theorem iterCards_standard_spec :
    (∀ n : Nat, 52 ≤ n →
      IterCards.collectFuel n IterCards.standard = standardOrder) ∧
    standardOrder.length = 52 ∧
    (∀ (s : Suit) (r : Rank), r ≠ Rank.Joker →
      standardOrder.count (Card.SuitCard s r) = 1) ∧
    (∀ s : Suit, standardOrder.count (Card.SuitCard s Rank.Joker) = 0) ∧
    (∀ c : Color, standardOrder.count (Card.JokerCard c) = 0) ∧
    (∀ k : Nat, 52 ≤ k → (IterCards.steps k IterCards.standard).next.1 = none) :=
  ⟨collect_standard_eventually, by decide, by decide, by decide, by decide,
   steps_standard_none⟩

/-- C2 witness at concrete inputs. -/
theorem iterCards_standard_spec_witness :
    IterCards.collectFuel 57 IterCards.standard = standardOrder ∧
    standardOrder.count (Card.SuitCard Suit.Hearts Rank.Five) = 1 ∧
    (IterCards.steps 53 IterCards.standard).next.1 = none :=
  ⟨iterCards_standard_spec.1 57 (by decide),
   iterCards_standard_spec.2.2.1 Suit.Hearts Rank.Five (by decide),
   iterCards_standard_spec.2.2.2.2.2 53 (by decide)⟩

/-- C3: `IterCards::full` yields the same 52 cards the standard iterator
yields, in the same order, followed by the black then the red joker — 54
cards in all — then `None` forever; no yielded `SuitCard` has rank `Joker`. -/
theorem iterCards_full_spec :
    (∀ n : Nat, 54 ≤ n → IterCards.collectFuel n IterCards.full = fullOrder) ∧
    (∀ n m : Nat, 54 ≤ n → 52 ≤ m →
      IterCards.collectFuel n IterCards.full =
        IterCards.collectFuel m IterCards.standard ++
          [Card.JokerCard Color.Black, Card.JokerCard Color.Red]) ∧
    fullOrder.length = 54 ∧
    (∀ s : Suit, Card.SuitCard s Rank.Joker ∉ fullOrder) ∧
    (∀ k : Nat, 54 ≤ k → (IterCards.steps k IterCards.full).next.1 = none) :=
  ⟨collect_full_eventually,
   fun n m hn hm => by
     rw [collect_full_eventually n hn, collect_standard_eventually m hm]; rfl,
   by decide, by decide, steps_full_none⟩

/-- C3 witness at concrete inputs. -/
theorem iterCards_full_spec_witness :
    IterCards.collectFuel 58 IterCards.full = fullOrder ∧
    IterCards.collectFuel 54 IterCards.full =
      IterCards.collectFuel 52 IterCards.standard ++
        [Card.JokerCard Color.Black, Card.JokerCard Color.Red] ∧
    (IterCards.steps 55 IterCards.full).next.1 = none :=
  ⟨iterCards_full_spec.1 58 (by decide),
   iterCards_full_spec.2.1 54 52 (by decide) (by decide),
   iterCards_full_spec.2.2.2.2 55 (by decide)⟩

/-- C1 counterexample: the claim "every JokerCard's rank is strictly greater
than every SuitCard's rank" fails at the degenerate value
`SuitCard(Clubs, Joker)` the `Card` type admits, whose rank already equals
`Joker`, so the derived strict order does not hold. -/
theorem joker_rank_not_gt_suitcard_joker :
    ¬ Rank.ordLt (Card.SuitCard Suit.Clubs Rank.Joker).rank
      (Card.JokerCard Color.Black).rank := by decide

/-- C1 (amended): `rank()` is total; all jokers share the same rank
regardless of color; and a joker's rank is strictly greater (in the derived
order on `Rank`) than the rank of every `SuitCard` whose rank is not `Joker`
— i.e. every card the enumerators produce. -/
theorem joker_rank_spec :
    (∀ c : Card, ∃ r : Rank, c.rank = r) ∧
    (∀ c₁ c₂ : Color, (Card.JokerCard c₁).rank = (Card.JokerCard c₂).rank) ∧
    (∀ (c : Color) (s : Suit) (r : Rank), r ≠ Rank.Joker →
      Rank.ordLt (Card.SuitCard s r).rank (Card.JokerCard c).rank) :=
  ⟨fun c => ⟨c.rank, rfl⟩, by decide, by decide⟩

/-- C1 witness at concrete inputs. -/
theorem joker_rank_spec_witness :
    Rank.ordLt (Card.SuitCard Suit.Spades Rank.Ace).rank
      (Card.JokerCard Color.Black).rank :=
  joker_rank_spec.2.2 Color.Black Suit.Spades Rank.Ace (by decide)

/-- C4 counterexample: `SuitCard(Hearts, Ten)` renders as `"TH"`, not the
claimed `"10H"` — `RANK_NAMES` starts at discriminant 8, which is `Ten`, so
`Ten` prints the single letter `'T'`. -/
theorem ten_does_not_render_decimal :
    Card.display (Card.SuitCard Suit.Hearts Rank.Ten) ≠ "10H" := by decide

/-- C4 (amended): a `SuitCard` renders as its rank glyph immediately followed
by its suit glyph; ranks Two through Nine render as their decimal numerals
"2" through "9", while Ten renders as "T" and the face ranks as "J", "Q",
"K", "A"; every rank glyph is exactly one character; in particular
`SuitCard(Spades, Ace)` renders as "AS" and `SuitCard(Hearts, Ten)` as "TH". -/
theorem suitCard_display_spec :
    (∀ (s : Suit) (r : Rank),
      Card.display (Card.SuitCard s r) = r.display ++ s.display) ∧
    (Rank.display .Two = "2" ∧ Rank.display .Three = "3" ∧
     Rank.display .Four = "4" ∧ Rank.display .Five = "5" ∧
     Rank.display .Six = "6" ∧ Rank.display .Seven = "7" ∧
     Rank.display .Eight = "8" ∧ Rank.display .Nine = "9") ∧
    (Rank.display .Ten = "T" ∧ Rank.display .Jack = "J" ∧
     Rank.display .Queen = "Q" ∧ Rank.display .King = "K" ∧
     Rank.display .Ace = "A") ∧
    (∀ r : Rank, (Rank.display r).length = 1) ∧
    Card.display (Card.SuitCard Suit.Spades Rank.Ace) = "AS" ∧
    Card.display (Card.SuitCard Suit.Hearts Rank.Ten) = "TH" := by
  refine ⟨fun s r => rfl, by decide, by decide, by decide, by decide, by decide⟩

/-- C5: the color glyphs are `'R'` for `Black` and `'B'` for `Red` (in that
swapped-looking order, exactly as `COLOR_NAMES` lists them), and a joker
renders as its color glyph immediately followed by the joker marker `'?'`. -/
theorem joker_display_spec :
    Color.display Color.Black = "R" ∧
    Color.display Color.Red = "B" ∧
    (∀ c : Color, Card.display (Card.JokerCard c) = c.display ++ "?") ∧
    Card.display (Card.JokerCard Color.Black) = "R?" ∧
    Card.display (Card.JokerCard Color.Red) = "B?" := by
  refine ⟨by decide, by decide, by decide, by decide, by decide⟩

/-- C10: the two copies of the `Rank` `Display` impl diverge on the numeric
ranks — `src/cards.rs` prints the raw discriminant, so `Two` renders as "0"
there while `src/src/lib.rs` renders it as "2"; they agree only from `Ten`
upward. -/
theorem rank_display_copies_diverge :
    Rank.displayCardsRs Rank.Two = "0" ∧
    Rank.display Rank.Two = "2" ∧
    Rank.displayCardsRs Rank.Two ≠ Rank.display Rank.Two ∧
    Rank.displayCardsRs Rank.Ten = Rank.display Rank.Ten ∧
    Rank.displayCardsRs Rank.Joker = Rank.display Rank.Joker := by
  refine ⟨by decide, by decide, by decide, by decide, by decide⟩

/-- C6: on an empty deck `draw` returns `none` and leaves the deck unchanged;
on a non-empty deck it removes and returns the last element, leaving the
remaining cards in their prior order. -/
theorem draw_spec :
    (∀ d : Deck, d.cards = [] → d.draw = (none, d)) ∧
    (∀ (d : Deck) (l : List Card) (c : Card), d.cards = l ++ [c] →
      d.draw = (some c, { cards := l })) := by
  constructor
  · intro d h
    simp [Deck.draw, h]
  · intro d l c h
    simp [Deck.draw, h]

/-- C6 witness at concrete inputs. -/
theorem draw_spec_witness :
    Deck.draw { cards := [] } = (none, { cards := [] }) ∧
    Deck.draw { cards := [Card.JokerCard Color.Black, Card.JokerCard Color.Red] } =
      (some (Card.JokerCard Color.Red),
       { cards := [Card.JokerCard Color.Black] }) :=
  ⟨draw_spec.1 { cards := [] } rfl,
   draw_spec.2 { cards := [Card.JokerCard Color.Black, Card.JokerCard Color.Red] }
     [Card.JokerCard Color.Black] (Card.JokerCard Color.Red) rfl⟩

/-- C7: a successful `draw` immediately followed by `put` of the drawn card
restores the deck to exactly its prior contents and order. -/
theorem draw_put_roundtrip (d : Deck) (c : Card) (d2 : Deck)
    (h : d.draw = (some c, d2)) : d2.put c = d := by
  rcases List.eq_nil_or_concat d.cards with hnil | ⟨l, a, hla⟩
  · simp [Deck.draw, hnil] at h
  · simp [Deck.draw, hla] at h
    obtain ⟨rfl, rfl⟩ := h
    cases d
    simp_all [Deck.put]

/-- C7 witness at a concrete input. -/
theorem draw_put_roundtrip_witness :
    Deck.put { cards := [] } (Card.JokerCard Color.Black) =
      { cards := [Card.JokerCard Color.Black] } :=
  draw_put_roundtrip { cards := [Card.JokerCard Color.Black] }
    (Card.JokerCard Color.Black) { cards := [] } (by decide)

/-- C8: `A.append(B)` leaves `A` holding its prior cards followed by `B`'s
prior cards, both in their prior order; e.g. `[a1, a2]` and `[b1, b2]`
yield `[a1, a2, b1, b2]`. -/
theorem append_spec :
    (∀ A B : Deck, (A.append B).cards = A.cards ++ B.cards) ∧
    (∀ a1 a2 b1 b2 : Card,
      Deck.append { cards := [a1, a2] } { cards := [b1, b2] } =
        { cards := [a1, a2, b1, b2] }) :=
  ⟨fun _ _ => rfl, fun _ _ _ _ => rfl⟩

/-- Setting position `m` to `a` and pulling the replaced element `b` to the
head permutes pushing `a` itself at the head. -/
theorem cons_set_perm {α : Type} (a : α) :
    ∀ (t : List α) (m : Nat) (b : α), t[m]? = some b →
      List.Perm (b :: t.set m a) (a :: t) := by
  intro t
  induction t with
  | nil =>
    intro m b h
    simp at h
  | cons d t ih =>
    intro m b h
    cases m with
    | zero =>
      simp at h
      subst h
      simpa [List.set] using List.Perm.swap a d t
    | succ k =>
      simp at h
      exact ((List.Perm.swap d b (t.set k a)).trans
        ((ih k b h).cons d)).trans (List.Perm.swap a d t)

/-- Writing each of two in-bounds elements at the other's position permutes
the list. -/
theorem set_set_swap_perm {α : Type} :
    ∀ (l : List α) (i j : Nat) (a b : α), l[i]? = some a → l[j]? = some b →
      List.Perm ((l.set i b).set j a) l := by
  intro l
  induction l with
  | nil =>
    intro i j a b hi _
    simp at hi
  | cons c t ih =>
    intro i j a b hi hj
    cases i with
    | zero =>
      simp at hi
      subst hi
      cases j with
      | zero =>
        simp at hj
        subst hj
        simp [List.set]
      | succ m =>
        simp at hj
        simpa [List.set] using cons_set_perm c t m b hj
    | succ n =>
      simp at hi
      cases j with
      | zero =>
        simp at hj
        subst hj
        simpa [List.set] using cons_set_perm c t n a hi
      | succ m =>
        simp at hj
        simpa [List.set] using (ih n m a b hi hj).cons c

/-- A slice swap permutes the list, in or out of bounds. -/
theorem listSwap_perm (l : List Card) (i j : Nat) :
    List.Perm (listSwap l i j) l := by
  unfold listSwap
  split
  next a b hi hj => exact set_set_swap_perm l i j a b hi hj
  next => exact List.Perm.refl l

/-- Every pass of the shuffle loop permutes the list. -/
theorem shuffleSteps_perm (rng : Nat → Nat) :
    ∀ (n : Nat) (l : List Card), List.Perm (shuffleSteps rng n l) l := by
  intro n
  induction n with
  | zero => intro l; exact List.Perm.refl l
  | succ i ih =>
    intro l
    exact (ih _).trans (listSwap_perm l (i + 1) (rng (i + 1) % (i + 2)))

/-- C9: for every state of the random source, `shuffle` permutes the deck in
place — the multiset of cards, every card's multiplicity, and the card count
are unchanged. -/
theorem shuffle_preserves_multiset (rng : Nat → Nat) (d : Deck) :
    List.Perm (Deck.shuffle rng d).cards d.cards ∧
    Multiset.ofList (Deck.shuffle rng d).cards = Multiset.ofList d.cards ∧
    (∀ c : Card, (Deck.shuffle rng d).cards.count c = d.cards.count c) ∧
    (Deck.shuffle rng d).cards.length = d.cards.length := by
  have hp : List.Perm (Deck.shuffle rng d).cards d.cards :=
    shuffleSteps_perm rng (d.cards.length - 1) d.cards
  exact ⟨hp, Quot.sound hp, fun c => hp.count_eq c, hp.length_eq⟩

end PlayingCards

